import Mathlib

/-!
Verification of the schema-derivation / validation core of `overjoy-swag`
(an OpenAPI 2.x contract loader for hapi).

The development shallowly embeds the relevant TypeScript sources:
  * `src/core.ts` - schema derivation (`createSchema`,
    `createPayloadValidateSchema`, `swaggerResponseToAPIResponse`,
    `operationToValidateParams`) together with the validator-module
    revisions kept in that file (`getValidateFunction`, `validate`, the
    `ajv.addFormat` registrations);
  * `src/validate.ts` - the memoized compile cache and the `validate`
    dispatch on the engine outcome;
  * `src/hapiIntegration.ts` (and the further revisions of that module kept
    in the repository) - handler resolution (`makeHapiRoute`), per-location
    validation wiring (`makeHapiValidate`), the not-implemented stand-in,
    and `transformHandler`.

JavaScript plain values are embedded as a `Json` inductive whose objects
are ordered field lists, matching the observable key order of JS objects.
Numbers are embedded as exact rationals; this is faithful for every value
the claims exercise (no floating-point rounding is involved).  The external
validation engine (ajv) is embedded only as far as the claims need it: the
format predicates registered by the source are transcribed exactly over a
model of the JS `ToNumber` string coercion, and the JSON-Schema fragment
occurring in the derived schemas (`type`, `anyOf`, `format`, `enum`,
`required`, plus the trivially-true empty schema) gets an executable
checker.
-/

mutual
/-- A JavaScript plain data value.  Objects are ordered field lists
(`JsonObject`), arrays are `JsonArray`; numbers are exact rationals. -/
inductive Json where
  | null : Json
  | bool (b : Bool) : Json
  | num (q : Rat) : Json
  | str (s : String) : Json
  | arr (elems : JsonArray) : Json
  | obj (fields : JsonObject) : Json

/-- The element list of an embedded JS array. -/
inductive JsonArray where
  | nil : JsonArray
  | cons (hd : Json) (tl : JsonArray) : JsonArray

/-- The ordered field list of an embedded JS object.  JS object keys are
unique; every lookup below is first-match, which coincides with JS
property reads on such lists. -/
inductive JsonObject where
  | nil : JsonObject
  | cons (key : String) (val : Json) (tl : JsonObject) : JsonObject
end

deriving instance DecidableEq for Json
deriving instance DecidableEq for JsonArray
deriving instance DecidableEq for JsonObject

namespace JsonArray

/-- Build an embedded array from a Lean list. -/
def ofList : List Json → JsonArray
  | [] => .nil
  | x :: xs => .cons x (ofList xs)

/-- The Lean list of elements of an embedded array. -/
def toList : JsonArray → List Json
  | .nil => []
  | .cons x xs => x :: toList xs

/-- JS `Array.prototype.concat` on element lists. -/
def append : JsonArray → JsonArray → JsonArray
  | .nil, ys => ys
  | .cons x xs, ys => .cons x (append xs ys)

end JsonArray

namespace JsonObject

/-- JS property read `o[k]`; `none` plays the role of `undefined`. -/
def find? (k : String) : JsonObject → Option Json
  | .nil => none
  | .cons key v tl => if key = k then some v else find? k tl

/-- Whether the object has the key. -/
def hasKey (k : String) (o : JsonObject) : Bool :=
  (o.find? k).isSome

/-- JS property write `o[k] = v`: replaces the value of an existing key in
place, otherwise appends the key at the end.  This is also the effect of
`R.assocPath` / `R.assoc` at one level on our ordered-field model. -/
def set (k : String) (v : Json) : JsonObject → JsonObject
  | .nil => .cons k v .nil
  | .cons key w tl => if key = k then .cons key v tl else .cons key w (set k v tl)

/-- Ramda `R.omit(ks, o)`: drops the listed keys, keeps the order of the rest. -/
def omitKeys (o : JsonObject) (ks : List String) : JsonObject :=
  match o with
  | .nil => .nil
  | .cons key v tl =>
    if ks.contains key then omitKeys tl ks else .cons key v (omitKeys tl ks)

/-- Helper for `R.merge`: each field of `o` keeps its position but takes the
value `b` holds for its key, when `b` has it. -/
def overrideFrom (o : JsonObject) (b : JsonObject) : JsonObject :=
  match o with
  | .nil => .nil
  | .cons key v tl => .cons key ((b.find? key).getD v) (overrideFrom tl b)

/-- Helper for `R.merge`: the fields of `o` whose keys `a` does not have,
in order. -/
def removeKeysOf (o : JsonObject) (a : JsonObject) : JsonObject :=
  match o with
  | .nil => .nil
  | .cons key v tl =>
    if a.hasKey key then removeKeysOf tl a else .cons key v (removeKeysOf tl a)

/-- Concatenation of field lists. -/
def append : JsonObject → JsonObject → JsonObject
  | .nil, ys => ys
  | .cons k v tl, ys => .cons k v (append tl ys)

/-- Ramda `R.merge(a, b)` (`Object.assign` onto a fresh object): keys of `a` keep their
position but take the value from `b` when `b` also has the key; keys only
in `b` are appended in the order of `b`. -/
def merge (a b : JsonObject) : JsonObject :=
  append (a.overrideFrom b) (b.removeKeysOf a)

/-- Ramda `R.mapObjIndexed(f, o)` restricted to value maps: applies `f` to every
field value, keeping keys and order. -/
def mapVals (f : Json → Json) : JsonObject → JsonObject
  | .nil => .nil
  | .cons key v tl => .cons key (f v) (mapVals f tl)

/-- Build an embedded object from a Lean association list. -/
def ofList : List (String × Json) → JsonObject
  | [] => .nil
  | (k, v) :: rest => .cons k v (ofList rest)

end JsonObject

namespace Json

/-- Shorthand constructor: object literal from an association list. -/
def mkObj (l : List (String × Json)) : Json :=
  .obj (JsonObject.ofList l)

/-- Shorthand constructor: array literal from a list. -/
def mkArr (l : List Json) : Json :=
  .arr (JsonArray.ofList l)

/-- JS truthiness of an embedded value (`!!v`). -/
def truthy : Json → Bool
  | .null => false
  | .bool b => b
  | .num q => q ≠ 0
  | .str s => s ≠ ""
  | .arr _ => true
  | .obj _ => true

/-- Property read `v[k]` on an embedded value; non-objects have no
properties in the fragment the source reads. -/
def getProp (k : String) : Json → Option Json
  | .obj fields => fields.find? k
  | _ => none

end Json

/-! ## The JS `ToNumber` coercion on strings

The format predicates the source registers on ajv (`src/core.ts`, the
`ajv.addFormat` calls) coerce their string argument with unary plus:
`Number.isInteger(+value)` and `!Number.isNaN(+value)`.  We model the
ECMAScript `ToNumber` algorithm on strings: trim, empty string to `0`,
`Infinity` forms, hex/octal/binary integer literals, and signed decimal
literals with optional fraction and exponent; everything else is `NaN`.
Values are exact rationals (see the module comment). -/

/-- Result of coercing a string with JS unary plus: `NaN`, an infinity, or
a finite value. -/
inductive JsNumber where
  | nan : JsNumber
  | posInf : JsNumber
  | negInf : JsNumber
  | finite (q : Rat) : JsNumber
  deriving DecidableEq, Repr

/-- The whitespace characters `ToNumber` (and `String.prototype.trim`)
strips: ASCII whitespace, NBSP, the line separators, and the BOM.  (The
rarer Unicode `Zs` code points are omitted; no claim exercises them.) -/
def isJsWhitespace (c : Char) : Bool :=
  c = ' ' ∨ c = '\t' ∨ c = '\n' ∨ c = '\x0b' ∨ c = '\x0c' ∨ c = '\r' ∨
    c = '\u00A0' ∨ c = '\u2028' ∨ c = '\u2029' ∨ c = '\uFEFF'

/-- Numeric value of a list of decimal digit characters. -/
def digitsVal (ds : List Char) : Nat :=
  ds.foldl (fun acc c => 10 * acc + (c.toNat - 48)) 0

/-- Value of a hex/octal/binary digit, if the character is one. -/
def radixDigitVal (radix : Nat) (c : Char) : Option Nat :=
  let v : Nat :=
    if '0' ≤ c ∧ c ≤ '9' then c.toNat - 48
    else if 'a' ≤ c ∧ c ≤ 'f' then c.toNat - 87
    else if 'A' ≤ c ∧ c ≤ 'F' then c.toNat - 55
    else 99
  if v < radix then some v else none

/-- Value of a non-decimal integer literal body (after `0x`/`0o`/`0b`),
requiring at least one digit and full consumption. -/
def parseRadixDigits (radix : Nat) : List Char → Option Nat
  | [] => none
  | [c] => radixDigitVal radix c
  | c :: rest => do
    let v ← radixDigitVal radix c
    let w ← parseRadixDigits radix rest
    pure (v * radix ^ rest.length + w)

/-- The optional exponent tail of a decimal literal: empty means exponent
`0`; otherwise `e`/`E`, optional sign, at least one digit, nothing after. -/
def parseExpPart : List Char → Option Int
  | [] => some 0
  | c :: rest =>
    if c = 'e' ∨ c = 'E' then
      let (esign, rest2) : Int × List Char :=
        match rest with
        | '+' :: r => (1, r)
        | '-' :: r => (-1, r)
        | r => (1, r)
      let ds := rest2.takeWhile Char.isDigit
      if ds = [] ∨ rest2.dropWhile Char.isDigit ≠ [] then none
      else some (esign * (digitsVal ds : Int))
    else none

/-- Exact value of a decimal literal with integer part `ip`, fraction part
`fp` and exponent `e`: the rational `(ip + fp / 10 ^ len fp) * 10 ^ e`,
written with `mkRat` over integer arithmetic. -/
def decValue (ip fp : List Char) (e : Int) : Rat :=
  let numScaled : Int := ((digitsVal ip * 10 ^ fp.length + digitsVal fp : Nat) : Int)
  if 0 ≤ e then mkRat (numScaled * 10 ^ e.toNat) (10 ^ fp.length)
  else mkRat numScaled (10 ^ fp.length * 10 ^ (-e).toNat)

/-- An unsigned decimal literal `digits [. digits] [exp]` or `. digits
[exp]`, fully consuming its input. -/
def parseDec (cs : List Char) : Option Rat :=
  let ip := cs.takeWhile Char.isDigit
  let rest1 := cs.dropWhile Char.isDigit
  match rest1 with
  | '.' :: rest2 =>
    let fp := rest2.takeWhile Char.isDigit
    let rest3 := rest2.dropWhile Char.isDigit
    if ip = [] ∧ fp = [] then none
    else (parseExpPart rest3).map (decValue ip fp)
  | rest =>
    if ip = [] then none
    else (parseExpPart rest).map (decValue ip [])

/-- A signed decimal literal or a signed `Infinity`. -/
def parseSignedDec (cs : List Char) : JsNumber :=
  let (neg, rest) : Bool × List Char :=
    match cs with
    | '+' :: r => (false, r)
    | '-' :: r => (true, r)
    | r => (false, r)
  if rest = ['I', 'n', 'f', 'i', 'n', 'i', 't', 'y'] then
    if neg then .negInf else .posInf
  else
    match parseDec rest with
    | some q => .finite (if neg then -q else q)
    | none => .nan

/-- JS `ToNumber` on a string (the value of unary plus `+s`). -/
def jsToNumber (s : String) : JsNumber :=
  let cs := ((s.toList.dropWhile isJsWhitespace).reverse.dropWhile
    isJsWhitespace).reverse
  match cs with
  | [] => .finite 0
  | '0' :: c :: rest =>
    if c = 'x' ∨ c = 'X' then
      match parseRadixDigits 16 rest with
      | some n => .finite n
      | none => .nan
    else if c = 'o' ∨ c = 'O' then
      match parseRadixDigits 8 rest with
      | some n => .finite n
      | none => .nan
    else if c = 'b' ∨ c = 'B' then
      match parseRadixDigits 2 rest with
      | some n => .finite n
      | none => .nan
    else parseSignedDec cs
  | _ => parseSignedDec cs

/-- JS `Number.isInteger`: finite with no fractional part. -/
def jsIsInteger : JsNumber → Bool
  | .finite q => q.den = 1
  | _ => false

/-- JS `Number.isNaN`. -/
def jsIsNaN : JsNumber → Bool
  | .nan => true
  | _ => false

/-! Format predicates registered by the source
(`src/core.ts`, `ajv.addFormat` calls):
`integer` is `(value) => Number.isInteger(+value)`,
`number` is `(value) => !Number.isNaN(+value)`,
`int32` and `int64` are `(value) => Number.isInteger(+value)`. -/

/-- The `integer` format registered on ajv by the source. -/
def formatIntegerCheck (value : String) : Bool :=
  jsIsInteger (jsToNumber value)

/-- The `number` format registered on ajv by the source. -/
def formatNumberCheck (value : String) : Bool :=
  !(jsIsNaN (jsToNumber value))

/-- The format registry of the modelled ajv instance.  Formats the instance
does not know are ignored (treated as passing), matching the configured
ajv behaviour. -/
def formatCheck (name : String) (value : String) : Bool :=
  if name = "integer" then formatIntegerCheck value
  else if name = "number" then formatNumberCheck value
  else if name = "int32" ∨ name = "int64" then jsIsInteger (jsToNumber value)
  else true

/-! ## The validation semantics of the compiled schemas

ajv itself is an external dependency; we embed the semantics of the
JSON-Schema keywords that occur in the schemas this program derives and
evaluates (`type`, `anyOf`, `format`), with the format registry above.  A
schema object with none of these keywords (in particular the empty schema)
accepts every value, as in ajv. -/

/-- Does a JSON-Schema `type` name match a data value?  `integer` means a
number without fractional part, as in ajv. -/
def typeNameMatches (t : String) (data : Json) : Bool :=
  if t = "integer" then match data with | .num q => q.den = 1 | _ => false
  else if t = "number" then match data with | .num _ => true | _ => false
  else if t = "string" then match data with | .str _ => true | _ => false
  else if t = "boolean" then match data with | .bool _ => true | _ => false
  else if t = "object" then match data with | .obj _ => true | _ => false
  else if t = "array" then match data with | .arr _ => true | _ => false
  else if t = "null" then match data with | .null => true | _ => false
  else false

/-- The `type` keyword: a single type name or a list of alternatives. -/
def checkTypeKeyword (v : Json) (data : Json) : Bool :=
  match v with
  | .str t => typeNameMatches t data
  | .arr ts => go ts
  | _ => true
where
  go : JsonArray → Bool
    | .nil => false
    | .cons (.str t) rest => typeNameMatches t data || go rest
    | .cons _ rest => go rest

mutual

/-- Evaluate a derived schema on a data value (the behaviour of the
compiled ajv validator on the schema fragment this program produces). -/
def validateJson (schema : Json) (data : Json) : Bool :=
  match schema with
  | .obj fields => validateKeywords fields data
  | _ => true

/-- All keyword fields of a schema object must pass.  The head keyword
`k` with value `v` is checked (`format` constrains only string data, as
for ajv string formats; keywords outside the embedded fragment constrain
nothing), then the rest. -/
def validateKeywords (fields : JsonObject) (data : Json) : Bool :=
  match fields with
  | .nil => true
  | .cons k v tl =>
    (if k = "type" then checkTypeKeyword v data
     else if k = "anyOf" then
       match v with
       | .arr elems => anyOfPasses elems data
       | _ => true
     else if k = "format" then
       match v, data with
       | .str f, .str s => formatCheck f s
       | _, _ => true
     else true)
    && validateKeywords tl data

/-- The `anyOf` keyword: at least one alternative accepts the value. -/
def anyOfPasses (elems : JsonArray) (data : Json) : Bool :=
  match elems with
  | .nil => false
  | .cons s rest => validateJson s data || anyOfPasses rest data

end

/-! ## Schema derivation (`src/core.ts`)

`src/core.ts` carries two revisions of the derivation code, separated by a
document marker.  `CoreV1` embeds the first revision (`createSchema`
returning an empty schema object when a location has no parameters, and
`operationToValidateParams` injecting a synthetic `default` response);
`CoreV2` embeds the second revision (`createSchema` returning `undefined`
for an empty location, the `anyOf` construction for `number` / `integer` /
`array` parameters, and no injected `default` response).  Parameters,
schemas and responses are embedded `Json` objects, exactly as the source
manipulates them with ramda object operations. -/

/-- The field list of an embedded object (parameters are objects). -/
def paramFields : Json → JsonObject
  | .obj f => f
  | _ => .nil

/-- The `param.name` string as it is used it is used as (property key and `required`
entry).  Parameters in scope of the claims always carry a string name. -/
def paramNameStr (p : Json) : String :=
  match p.getProp "name" with
  | some (.str s) => s
  | _ => "undefined"

/-- The test `param.in === type`. -/
def paramInIs (type : String) (p : Json) : Bool :=
  p.getProp "in" == some (.str type)

/-- The test `param.required === true`. -/
def paramRequiredIsTrue (p : Json) : Bool :=
  p.getProp "required" == some (.bool true)

/-- Ramda `R.merge` of two embedded objects (the source only merges objects on
this path). -/
def mergeObj (a b : Json) : Json :=
  match a, b with
  | .obj fa, .obj fb => .obj (fa.merge fb)
  | _, _ => b

/-- Ramda `R.assocPath(['properties', name], v, prev)`: set
`prev.properties[name] = v`, creating the `properties` object if needed
(`prev` is always an object here). -/
def assocProperties (prev : Json) (name : String) (v : Json) : Json :=
  match prev with
  | .obj f =>
    let inner : JsonObject :=
      match f.find? "properties" with
      | some (.obj pf) => pf
      | _ => .nil
    .obj (f.set "properties" (.obj (inner.set name v)))
  | _ => .mkObj [("properties", .mkObj [(name, v)])]

namespace CoreV2

/-- The `omit(['in', 'name', 'required'], param)` schema of a parameter. -/
def paramSchema (param : Json) : Json :=
  .obj ((paramFields param).omitKeys ["in", "name", "required"])

/-- One step of the `reduce` in the second-revision `createSchema`: place
the parameter's property schema, with the `anyOf` alternative construction
for `number`, `integer` and `array` typed parameters. -/
def createSchemaStep (prevValue : Json) (param : Json) : Json :=
  let schema := paramSchema param
  if param.getProp "type" == some (.str "number") then
    assocProperties prevValue (paramNameStr param)
      (.mkObj [("anyOf", .mkArr
        [schema,
         mergeObj schema (.mkObj [("type", .str "string"), ("format", .str "number")])])])
  else if param.getProp "type" == some (.str "integer") then
    assocProperties prevValue (paramNameStr param)
      (.mkObj [("anyOf", .mkArr
        [schema,
         mergeObj schema (.mkObj [("type", .str "string"), ("format", .str "integer")])])])
  else if param.getProp "type" == some (.str "array") then
    let itemsPart : List Json :=
      match schema.getProp "items" with
      | some (.arr xs) => xs.toList
      | some j => if j.truthy then [j] else []
      | none => []
    assocProperties prevValue (paramNameStr param)
      (.mkObj [("anyOf", .mkArr (schema :: itemsPart))])
  else
    assocProperties prevValue (paramNameStr param) schema

/-- Second-revision `createSchema` (`src/core.ts`): derive the
per-location object schema, or `undefined` (`none`) when the location has
no parameters. -/
def createSchema (parameters : List Json) (type : String)
    (additionalProperties : Bool) : Option Json :=
  let filteredParams := parameters.filter (paramInIs type)
  let requiredParams := filteredParams.filter paramRequiredIsTrue
  if filteredParams.length ≠ 0 then
    let requiredTail : JsonObject :=
      if requiredParams.length ≠ 0 then
        .cons "required" (.mkArr (requiredParams.map (fun p => .str (paramNameStr p)))) .nil
      else .nil
    let baseSchema : Json :=
      .obj (.cons "type" (.str "object")
        (.cons "additionalProperties" (.bool additionalProperties)
          (.cons "properties" (.obj .nil) requiredTail)))
    some (filteredParams.foldl createSchemaStep baseSchema)
  else none

/-- Second-revision `createPayloadValidateSchema`: the first `body`
parameter's nested schema if one exists, otherwise the `formData` object
schema. -/
def createPayloadValidateSchema (parameters : List Json) : Option Json :=
  match parameters.find? (paramInIs "body") with
  | none => createSchema parameters "formData" false
  | some bodyParameter => bodyParameter.getProp "schema"

/-- The `anyType` list of the second revision. -/
def anyType : Json :=
  .mkArr [.str "string", .str "boolean", .str "number", .str "integer",
    .str "object", .str "array", .str "file"]

/-- Second-revision `swaggerResponseToAPIResponse`: payload schema defaults
to the permissive any-typed schema, headers schema to a permissive open
object schema. -/
def swaggerResponseToAPIResponse (response : Json) : Json :=
  let payloadSchema : Json :=
    match response.getProp "schema" with
    | some s => if s.truthy then s else
        .mkObj [("type", anyType), ("additionalProperties", .bool true)]
    | none => .mkObj [("type", anyType), ("additionalProperties", .bool true)]
  let headersSchema : Json :=
    match response.getProp "headers" with
    | some h => if h.truthy then h else
        .mkObj [("type", .str "object"), ("additionalProperties", .bool true)]
    | none => .mkObj [("type", .str "object"), ("additionalProperties", .bool true)]
  .mkObj [("payload", payloadSchema), ("headers", headersSchema)]

end CoreV2

/-- An operation as the derivation reads it: its parameter list and its
response map, both optional in the contract (`operation.parameters || []`,
`isNil(operation.responses)`). -/
structure Operation where
  parameters : Option (List Json) := none
  responses : Option JsonObject := none

namespace CoreV2

/-- The second-revision `ValidateParams`: the four per-location schemas,
each possibly absent, and the response map. -/
structure ValidateParams where
  params : Option Json
  query : Option Json
  headers : Option Json
  payload : Option Json
  responses : JsonObject

/-- Second-revision `operationToValidateParams`: derive the four location
schemas and map the declared responses; no entry is injected when the
contract declares none. -/
def operationToValidateParams (operation : Operation) : ValidateParams :=
  let parameters := operation.parameters.getD []
  { params := createSchema parameters "path" false
    query := createSchema parameters "query" false
    headers := createSchema parameters "header" true
    payload := createPayloadValidateSchema parameters
    responses :=
      match operation.responses with
      | none => .nil
      | some rs => rs.mapVals swaggerResponseToAPIResponse }

end CoreV2

namespace CoreV1

/-- One step of the `reduce` in the first-revision `createSchema`: the
parameter's `omit(['in', 'name', 'required'])` schema is placed verbatim
(no `anyOf` construction in this revision). -/
def createSchemaStep (prevValue : Json) (param : Json) : Json :=
  assocProperties prevValue (paramNameStr param)
    (.obj ((paramFields param).omitKeys ["in", "name", "required"]))

/-- First-revision `createSchema` (`src/core.ts`): like the second revision
but without the `anyOf` alternatives, and returning the empty object
schema when the location has no parameters. -/
def createSchema (parameters : List Json) (type : String)
    (additionalProperties : Bool) : Json :=
  let filteredParams := parameters.filter (paramInIs type)
  let requiredParams := filteredParams.filter paramRequiredIsTrue
  if filteredParams.length ≠ 0 then
    let requiredTail : JsonObject :=
      if requiredParams.length ≠ 0 then
        .cons "required" (.mkArr (requiredParams.map (fun p => .str (paramNameStr p)))) .nil
      else .nil
    let baseSchema : Json :=
      .obj (.cons "type" (.str "object")
        (.cons "additionalProperties" (.bool additionalProperties)
          (.cons "properties" (.obj .nil) requiredTail)))
    filteredParams.foldl createSchemaStep baseSchema
  else .mkObj []

/-- First-revision `createPayloadValidateSchema`: the first `body`
parameter's nested schema (`undefined`, hence `none`, when that parameter
has no `schema` field), otherwise the `formData` object schema. -/
def createPayloadValidateSchema (parameters : List Json) : Option Json :=
  match parameters.find? (paramInIs "body") with
  | none => some (createSchema parameters "formData" false)
  | some bodyParameter => bodyParameter.getProp "schema"

/-- The synthetic permissive response of the first revision:
`{ payload: {}, headers: {} }`. -/
def defaultResponse : Json :=
  .mkObj [("payload", .mkObj []), ("headers", .mkObj [])]

/-- First-revision `swaggerResponseToAPIResponse`: payload schema defaults
to the empty schema, headers schema to a permissive open object schema. -/
def swaggerResponseToAPIResponse (response : Json) : Json :=
  let payloadSchema : Json :=
    match response.getProp "schema" with
    | some s => if s.truthy then s else .mkObj []
    | none => .mkObj []
  let headersSchema : Json :=
    match response.getProp "headers" with
    | some h => if h.truthy then h else
        .mkObj [("type", .str "object"), ("additionalProperties", .bool true)]
    | none => .mkObj [("type", .str "object"), ("additionalProperties", .bool true)]
  .mkObj [("payload", payloadSchema), ("headers", headersSchema)]

/-- The first-revision `ValidateParams`: every location schema present
(this revision never produces `undefined` location schemas), plus the
response map. -/
structure ValidateParams where
  params : Json
  query : Json
  headers : Json
  payload : Option Json
  responses : JsonObject

/-- First-revision `operationToValidateParams`: derive the location
schemas, start the response map at `{ default: defaultResponse }` and merge
the declared responses over it, so a declared `default` overrides the
synthetic one. -/
def operationToValidateParams (operation : Operation) : ValidateParams :=
  let parameters := operation.parameters.getD []
  { params := createSchema parameters "path" false
    query := createSchema parameters "query" false
    headers := createSchema parameters "header" true
    payload := createPayloadValidateSchema parameters
    responses :=
      let base : JsonObject := .ofList [("default", defaultResponse)]
      match operation.responses with
      | none => base
      | some rs => base.merge (rs.mapVals swaggerResponseToAPIResponse) }

end CoreV1

/-- The `limit` query parameter of the pet-store sample used by the
repository's tests: an optional integer query parameter. -/
def limitParam : Json :=
  .mkObj [("name", .str "limit"), ("in", .str "query"),
    ("description", .str "maximum number of results to return"),
    ("required", .bool false), ("type", .str "integer")]

/-! ## The validator cache (`src/validate.ts` / `src/core.ts`)

`getValidateFunction` is `memoize((schema) => ajv.compile(schema))` in
every revision of the validator module.  `R.memoize` caches results keyed
by the serialized argument value; on the embedded `Json` fragment that
serialization is injective, so the cache is keyed by the schema value
itself.  Compiled validator instances are identified by the order in which
they were produced (`ajv.compile` returns a fresh closure each time it
runs); `compileLog` records each run of the compile callback. -/

/-- The process-wide memoization cache of `getValidateFunction`. -/
structure CompileCache where
  entries : List (Json × Nat) := []
  compileLog : List Json := []
  deriving DecidableEq

/-- The empty cache a fresh process starts with. -/
def CompileCache.init : CompileCache := {}

/-- The function `getValidateFunction(schema)`: return the cached compiled validator
for the schema value, compiling (and caching) on first use. -/
def getValidateFunction (schema : Json) (cache : CompileCache) :
    Nat × CompileCache :=
  match cache.entries.lookup schema with
  | some v => (v, cache)
  | none =>
    let v := cache.entries.length
    (v, { entries := cache.entries ++ [(schema, v)],
          compileLog := cache.compileLog ++ [schema] })

/-- A whole sequence of `getValidateFunction` calls, threading the
process-wide cache. -/
def processCompiles (schemas : List Json) (cache : CompileCache) : CompileCache :=
  schemas.foldl (fun c s => (getValidateFunction s c).2) cache

/-! ## `validate` (`src/core.ts`, the revision cloning its input)

The compiled ajv validator is external code; it is modelled as a function
from the schema and the given data value to an outcome: the boolean
verdict, the possibly coerced/defaulted data the validator leaves in the
cell it was handed (the configured ajv mutates the validated value in
place), and the `errors` property it sets (`null`, i.e. `none`, or an
array).  To make mutation and aliasing visible, caller data lives in an
explicit heap of cells; `R.clone` allocates a fresh cell holding a deep
copy. -/

/-- One entry of an ajv `errors` array (the structured per-field detail). -/
structure ErrorObject where
  dataPath : String
  message : String
  deriving DecidableEq

/-- What the compiled validator leaves behind on one run. -/
structure AjvOutcome where
  result : Bool
  data : Json
  errors : Option (List ErrorObject)

/-- The behaviour of compiled validators: schema and input value to
outcome.  (The engine is ajv, an external dependency; theorems quantify
over it.) -/
def Engine : Type := Json → Json → AjvOutcome

/-- A heap of caller-owned value cells; references are indices. -/
structure Heap where
  mem : List Json

/-- Read a cell. -/
def Heap.get (h : Heap) (r : Nat) : Json :=
  h.mem.getD r .null

/-- Overwrite a cell. -/
def Heap.put (h : Heap) (r : Nat) (v : Json) : Heap :=
  ⟨h.mem.set r v⟩

/-- Ramda `R.clone`: allocate a fresh cell holding a deep copy of the value in
`r`. -/
def cloneRef (h : Heap) (r : Nat) : Nat × Heap :=
  (h.mem.length, ⟨h.mem ++ [h.get r]⟩)

/-- The error classes of the validator module. -/
inductive ValError where
  | validationError (errors : List ErrorObject) : ValError
  | unknownError : ValError
  deriving DecidableEq

/-- The single call `validate` makes to its callback:
`callback(null, output)` on success, `callback(error)` on failure. -/
inductive CallbackArg where
  | success (output : Nat) : CallbackArg
  | failure (e : ValError) : CallbackArg
  deriving DecidableEq

/-- The branching of `validate` on the engine verdict and the `errors`
value the engine left behind: `callback(null, clonedAttributes)` on
success; on failure, `ValidationError(validate.errors)` when `errors` is
truthy (an array -- `if (validate.errors)`), `UnknownError` when it is
`null`/`undefined`. -/
def dispatchOutcome (out : AjvOutcome) (output : Nat) : CallbackArg :=
  if out.result then .success output
  else
    match out.errors with
    | some errs => .failure (.validationError errs)
    | none => .failure .unknownError

/-- The function `validate(schema, attributes, callback)` from the revision of the
validator module that clones (`src/core.ts`, final revision): clone the
input, fetch the memoized validator compiled from this very schema, run it
on the clone (which it may coerce in place), and dispatch on the verdict
and the `errors` the engine reported. -/
def validate (engine : Engine) (schema : Json) (attributes : Nat)
    (h : Heap) (cache : CompileCache) : CallbackArg × Heap × CompileCache :=
  let (clonedAttributes, h1) := cloneRef h attributes
  let (_, cache1) := getValidateFunction schema cache
  let out := engine schema (h1.get clonedAttributes)
  let h2 := h1.put clonedAttributes out.data
  (dispatchOutcome out clonedAttributes, h2, cache1)

/-! ## Route materialization (`src/hapiIntegration.ts`) -/

/-- What a handler replies with, as far as the claims observe it. -/
inductive Reply where
  | notImplemented : Reply
  | payload (v : Json) : Reply
  deriving DecidableEq

/-- The stand-in `notImplementedHandler`: replies `Boom.notImplemented()` whatever the
request. -/
def notImplementedHandler : Json → Reply :=
  fun _ => .notImplemented

/-- The handler-selection logic of `makeHapiRoute`
(`src/hapiIntegration.ts`): when the route id is truthy the table is
consulted at the id, otherwise at the composite key `"<method> <uri>"`;
any miss falls back to the not-implemented stand-in.  (A JS `undefined`
id is falsy exactly like the empty string; table values are functions and
hence truthy, so `!handler` detects exactly a missed lookup.) -/
def makeHapiRouteHandler (handlers : List (String × (Json → Reply)))
    (id : String) (method : String) (uri : String) : Json → Reply :=
  let handler : Option (Json → Reply) :=
    if id ≠ "" then handlers.lookup id
    else handlers.lookup (method ++ " " ++ uri)
  match handler with
  | some f => f
  | none => notImplementedHandler

/-- The per-location validation rules `makeHapiValidate` attaches, in the
revision of `src/hapiIntegration.ts` that guards each location on the
schema being present (the revision kept alongside the derivation that can
return `undefined` schemas).  Each attached rule is the verdict of the
closure `(value, options, next) => validate(params.<loc>, value, next)`
on the compiled derived schema. -/
structure HapiValidateParms where
  params : Option (Json → Bool)
  query : Option (Json → Bool)
  headers : Option (Json → Bool)
  payload : Option (Json → Bool)

/-- The function `makeHapiValidate(params)` (guarded revision): a location gets a
validation rule iff its derived schema is not `undefined`. -/
def makeHapiValidate (params : CoreV2.ValidateParams) : HapiValidateParms :=
  { params := params.params.map (fun s => fun value => validateJson s value)
    query := params.query.map (fun s => fun value => validateJson s value)
    headers := params.headers.map (fun s => fun value => validateJson s value)
    payload := params.payload.map (fun s => fun value => validateJson s value) }

/-- What the framework does with one location at request time: with no
attached rule the input is accepted without invoking any validator; with a
rule, the validator runs and decides. -/
structure LocationResult where
  invoked : Bool
  accepted : Bool
  deriving DecidableEq

/-- Run one location of a request through its (possibly absent) validation
rule. -/
def runLocationValidation (rule : Option (Json → Bool)) (input : Json) :
    LocationResult :=
  match rule with
  | none => { invoked := false, accepted := true }
  | some f => { invoked := true, accepted := f input }

/-! ## Handler transforms (`src/hapiIntegration.ts`, `transformHandler`) -/

/-- A handler-table value as `transformHandler` sees it: an opaque handler
(tagged), a wrapping object produced by a naming transform, or a falsy
entry. -/
inductive HVal where
  | base (tag : String) : HVal
  | objWrap (key : String) (inner : HVal) : HVal
  | nullVal : HVal
  deriving DecidableEq

/-- JS truthiness of a handler-table value. -/
def handlerTruthy : HVal → Bool
  | .nullVal => false
  | _ => true

/-- A JS value supplied as `handlerTransform`, by runtime type. -/
inductive TransformVal where
  | strVal (s : String) : TransformVal
  | fnVal (f : HVal → HVal) : TransformVal
  | undef : TransformVal
  | nullVal : TransformVal
  | boolVal (b : Bool) : TransformVal
  | numVal (q : Rat) : TransformVal
  | objVal (o : JsonObject) : TransformVal

/-- JS truthiness of a transform value. -/
def transformTruthy : TransformVal → Bool
  | .strVal s => s ≠ ""
  | .fnVal _ => true
  | .undef => false
  | .nullVal => false
  | .boolVal b => b
  | .numVal q => q ≠ 0
  | .objVal _ => true

/-- Measure for the one-step recursion of `transformHandler` (the string
case re-enters with a function transform). -/
def transformMeasure : TransformVal → Nat
  | .strVal _ => 1
  | _ => 0

/-- The function `transformHandler(transform, handler)` (`src/hapiIntegration.ts`):
falsy handlers and falsy transforms pass through; a string transform
re-enters with the wrapping function `(h) => ({ [transform]: h })`; a
function transform is applied; any other (truthy) transform throws
`Invalid transform typeof`. -/
def transformHandler (transform : TransformVal) (handler : HVal) :
    Except String HVal :=
  if handlerTruthy handler = false then .ok handler
  else if transformTruthy transform = false then .ok handler
  else
    match transform with
    | .strVal s => transformHandler (.fnVal (fun h => .objWrap s h)) handler
    | .fnVal f => .ok (f handler)
    | _ => .error "Invalid transform typeof"
termination_by transformMeasure transform
decreasing_by simp [transformMeasure]

/-- The handler-transform phase of `register`
(`mapObjIndexed(curry(transformHandler)(handlerTransform), handlers)`
inside the `try`): an exception from any entry aborts setup and is
surfaced through `next(e)`. -/
def transformHandlers (transform : TransformVal) :
    List (String × HVal) → Except String (List (String × HVal))
  | [] => .ok []
  | (k, hv) :: rest =>
    match transformHandler transform hv with
    | .error e => .error e
    | .ok h =>
      match transformHandlers transform rest with
      | .error e => .error e
      | .ok tl => .ok ((k, h) :: tl)

/-! ## Concrete values used by the claim witnesses and counterexamples -/

/-- A first `body` parameter, carrying an object schema. -/
def bodyParamOne : Json :=
  .mkObj [("name", .str "bodyOne"), ("in", .str "body"),
    ("schema", .mkObj [("type", .str "object"), ("required", .mkArr [.str "name"])])]

/-- A second, conflicting `body` parameter with a different schema. -/
def bodyParamTwo : Json :=
  .mkObj [("name", .str "bodyTwo"), ("in", .str "body"),
    ("schema", .mkObj [("type", .str "string")])]

/-- A handler table holding only the composite key `"get /a"`. -/
def compositeOnlyHandlers : List (String × (Json → Reply)) :=
  [("get /a", fun _ => .payload (.str "ok"))]

/-- An engine standing in for a compiled coercing validator: it accepts
and rewrites the validated value (as ajv with `coerceTypes` would coerce
the string `"42"` to the number `42`). -/
def coerceEngine : Engine :=
  fun _ _ => { result := true, data := .num 42, errors := none }

/-- An engine standing in for a validator that reports failure while
leaving an empty `errors` array. -/
def emptyErrorsEngine : Engine :=
  fun _ _ => { result := false, data := .null, errors := some [] }

/-- An engine reporting failure with one structured per-field error. -/
def detailErrorsEngine : Engine :=
  fun _ _ => { result := false, data := .null, errors := some [⟨".limit", "should be integer"⟩] }

/-- An engine reporting failure with `errors` left `null`. -/
def noDetailEngine : Engine :=
  fun _ _ => { result := false, data := .null, errors := none }

/-- An engine reporting success. -/
def successEngine : Engine :=
  fun _ d => { result := true, data := d, errors := none }

/-- The invariant of reachable cache states: the compile log lists exactly
the cached schema keys, keys are never duplicated, and the instance
identities are the distinct positions `0, 1, ...` in compilation order. -/
def CacheInv (c : CompileCache) : Prop :=
  c.compileLog = c.entries.map Prod.fst
  ∧ (c.entries.map Prod.fst).Nodup
  ∧ c.entries.map Prod.snd = List.range c.entries.length

/-- A first concrete schema value. -/
def schemaA : Json := .mkObj [("type", .str "integer")]

/-- A second, structurally different concrete schema value. -/
def schemaB : Json := .mkObj [("type", .str "string")]

/-- The property schema a derived location schema holds for a name:
`schema.properties[name]`. -/
def propertyOf (sch : Json) (name : String) : Option Json :=
  match sch.getProp "properties" with
  | some ps => ps.getProp name
  | none => none

namespace CoreV2

/-- The property schema `createSchemaStep` places for one parameter (the
value written at `properties[param.name]`). -/
def paramPropertySchema (param : Json) : Json :=
  let schema := paramSchema param
  if param.getProp "type" == some (.str "number") then
    .mkObj [("anyOf", .mkArr
      [schema,
       mergeObj schema (.mkObj [("type", .str "string"), ("format", .str "number")])])]
  else if param.getProp "type" == some (.str "integer") then
    .mkObj [("anyOf", .mkArr
      [schema,
       mergeObj schema (.mkObj [("type", .str "string"), ("format", .str "integer")])])]
  else if param.getProp "type" == some (.str "array") then
    let itemsPart : List Json :=
      match schema.getProp "items" with
      | some (.arr xs) => xs.toList
      | some j => if j.truthy then [j] else []
      | none => []
    .mkObj [("anyOf", .mkArr (schema :: itemsPart))]
  else schema

end CoreV2

/-- The derived property schema of a bare `type: integer` parameter. -/
def intBareAnyOf : Json :=
  .mkObj [("anyOf", .mkArr
    [.mkObj [("type", .str "integer")],
     .mkObj [("type", .str "string"), ("format", .str "integer")]])]

/-- The derived property schema of a bare `type: number` parameter. -/
def numBareAnyOf : Json :=
  .mkObj [("anyOf", .mkArr
    [.mkObj [("type", .str "number")],
     .mkObj [("type", .str "string"), ("format", .str "number")]])]

/-- The property schema the derivation produces for the pet-store `limit`
parameter. -/
def limitPropSchema : Json :=
  .mkObj [("anyOf", .mkArr
    [.mkObj [("description", .str "maximum number of results to return"),
             ("type", .str "integer")],
     .mkObj [("description", .str "maximum number of results to return"),
             ("type", .str "string"), ("format", .str "integer")]])]

/-! ## Supporting lemmas on embedded objects -/

theorem JsonObject.find?_set_self :
    ∀ (o : JsonObject) (k : String) (v : Json), (o.set k v).find? k = some v
  | .nil, k, v => by simp [JsonObject.set, JsonObject.find?]
  | .cons key w tl, k, v => by
    by_cases hk : key = k <;>
      simp [JsonObject.set, JsonObject.find?, hk, find?_set_self tl k v]

theorem JsonObject.find?_set_ne :
    ∀ (o : JsonObject) (k k' : String) (v : Json), k ≠ k' →
      (o.set k v).find? k' = o.find? k'
  | .nil, k, k', v, h => by simp [JsonObject.set, JsonObject.find?, h]
  | .cons key w tl, k, k', v, h => by
    by_cases hk : key = k
    · subst hk
      simp [JsonObject.set, JsonObject.find?, h]
    · simp [JsonObject.set, JsonObject.find?, hk, find?_set_ne tl k k' v h]

theorem JsonObject.find?_mapVals (f : Json → Json) :
    ∀ (o : JsonObject) (k : String), (o.mapVals f).find? k = (o.find? k).map f
  | .nil, k => by simp [JsonObject.mapVals, JsonObject.find?]
  | .cons key w tl, k => by
    by_cases hk : key = k <;>
      simp [JsonObject.mapVals, JsonObject.find?, hk, find?_mapVals f tl k]

theorem JsonObject.find?_merge_single (v : Json) (b : JsonObject) :
    ((JsonObject.ofList [("default", v)]).merge b).find? "default"
      = some ((b.find? "default").getD v) := by
  simp [JsonObject.merge, JsonObject.ofList, JsonObject.overrideFrom,
    JsonObject.append, JsonObject.find?]

/-- C2 -- For every operation, the derived responses mapping has a
`default` entry: the synthetic permissive `{ payload: {}, headers: {} }`
when the contract declares no responses or no `default` response, and the
declared `default` (converted through `swaggerResponseToAPIResponse`)
otherwise, overriding the synthetic one. -/
theorem operationToValidateParams_default_response (op : Operation) :
    (((CoreV1.operationToValidateParams op).responses.find? "default").isSome)
    ∧ (op.responses = none →
        (CoreV1.operationToValidateParams op).responses.find? "default"
          = some CoreV1.defaultResponse)
    ∧ (∀ rs, op.responses = some rs → rs.find? "default" = none →
        (CoreV1.operationToValidateParams op).responses.find? "default"
          = some CoreV1.defaultResponse)
    ∧ (∀ rs d, op.responses = some rs → rs.find? "default" = some d →
        (CoreV1.operationToValidateParams op).responses.find? "default"
          = some (CoreV1.swaggerResponseToAPIResponse d)) := by
  refine ⟨?_, ?_, ?_, ?_⟩
  · match h : op.responses with
    | none =>
      simp [CoreV1.operationToValidateParams, h, JsonObject.ofList,
        JsonObject.find?]
    | some rs =>
      simp [CoreV1.operationToValidateParams, h, JsonObject.find?_merge_single]
  · intro h
    simp [CoreV1.operationToValidateParams, h, JsonObject.ofList,
      JsonObject.find?]
  · intro rs h hd
    simp [CoreV1.operationToValidateParams, h, JsonObject.find?_merge_single,
      JsonObject.find?_mapVals, hd]
  · intro rs d h hd
    simp [CoreV1.operationToValidateParams, h, JsonObject.find?_merge_single,
      JsonObject.find?_mapVals, hd]

/-- Witness for C2 at concrete operations: one with no declared responses,
one declaring only a `200` response, and one declaring a `default`
response. -/
theorem operationToValidateParams_default_response_witness :
    ((CoreV1.operationToValidateParams { parameters := none, responses := none }).responses.find? "default"
      = some CoreV1.defaultResponse)
    ∧ ((CoreV1.operationToValidateParams
          { parameters := none,
            responses := some (.ofList [("200", .mkObj [("description", .str "ok")])]) }).responses.find? "default"
        = some CoreV1.defaultResponse)
    ∧ ((CoreV1.operationToValidateParams
          { parameters := none,
            responses := some (.ofList [("default", .mkObj [("description", .str "any"), ("schema", .mkObj [("type", .str "object")])])]) }).responses.find? "default"
        = some (CoreV1.swaggerResponseToAPIResponse
            (.mkObj [("description", .str "any"), ("schema", .mkObj [("type", .str "object")])]))) := by
  refine ⟨?_, ?_, ?_⟩
  · exact (operationToValidateParams_default_response _).2.1 rfl
  · exact (operationToValidateParams_default_response _).2.2.1 _ rfl (by decide)
  · exact (operationToValidateParams_default_response _).2.2.2 _ _ rfl (by decide)

/-! ## C7: locations without parameters are not validated at all -/

/-- C7 -- An operation with no parameters for a location derives the
absent schema (`undefined`) for it, the guarded `makeHapiValidate`
attaches no validation rule there, and at request time no validator is
invoked and every input is accepted; an empty-object schema, by contrast,
still invokes its validator (and accepts). -/
theorem createSchema_absent_location_skips (ps : List Json) (input : Json)
    (h : ∀ p ∈ ps, paramInIs "query" p = false) :
    CoreV2.createSchema ps "query" false = none
    ∧ (makeHapiValidate (CoreV2.operationToValidateParams
        { parameters := some ps, responses := none })).query = none
    ∧ runLocationValidation none input = { invoked := false, accepted := true }
    ∧ runLocationValidation (some (validateJson (.mkObj []))) input
        = { invoked := true, accepted := true } := by
  have hfilter : ps.filter (paramInIs "query") = [] := by
    rw [List.filter_eq_nil_iff]
    intro a ha
    simp [h a ha]
  refine ⟨?_, ?_, rfl, ?_⟩
  · simp [CoreV2.createSchema, hfilter]
  · simp [makeHapiValidate, CoreV2.operationToValidateParams,
      CoreV2.createSchema, hfilter]
  · have : validateJson (.mkObj []) input = true := by
      simp [Json.mkObj, JsonObject.ofList, validateJson, validateKeywords]
    simp [runLocationValidation, this]

/-- Witness for C7: no parameters at all; an arbitrary query object is
accepted without invoking any validator. -/
theorem createSchema_absent_location_skips_witness :
    CoreV2.createSchema [] "query" false = none
    ∧ runLocationValidation none (.mkObj [("anything", .str "goes")])
        = { invoked := false, accepted := true } :=
  ⟨(createSchema_absent_location_skips [] (.mkObj [("anything", .str "goes")])
      (by intro p hp; cases hp)).1,
   (createSchema_absent_location_skips [] (.mkObj [("anything", .str "goes")])
      (by intro p hp; cases hp)).2.2.1⟩

/-! ## C5: multiple body parameters -/

/-- Counterexample to C5: with two `body` parameters declared, derivation
does not fail at all -- `createPayloadValidateSchema` silently returns the
first body parameter's schema (the second is ignored), and
`operationToValidateParams` likewise derives a payload from it.  There is
no `ContractShapeError` (or any failure channel) in the derivation code. -/
theorem createPayloadValidateSchema_counterexample :
    CoreV2.createPayloadValidateSchema [bodyParamOne, bodyParamTwo]
      = some (.mkObj [("type", .str "object"), ("required", .mkArr [.str "name"])])
    ∧ CoreV2.createPayloadValidateSchema [bodyParamOne, bodyParamTwo]
      ≠ some (.mkObj [("type", .str "string")])
    ∧ (CoreV2.operationToValidateParams
        { parameters := some [bodyParamOne, bodyParamTwo], responses := none }).payload
      = some (.mkObj [("type", .str "object"), ("required", .mkArr [.str "name"])]) := by
  refine ⟨by decide, by decide, by decide⟩

/-- C5 (as amended) -- Derivation never fails on conflicting body
parameters: whenever the parameter list holds two or more `body`
parameters, `createPayloadValidateSchema` still succeeds and yields the
nested schema of the first `body` parameter in declaration order. -/
theorem createPayloadValidateSchema_first_body_wins (ps : List Json)
    (h : 2 ≤ (ps.filter (paramInIs "body")).length) :
    (ps.find? (paramInIs "body")).isSome
    ∧ CoreV2.createPayloadValidateSchema ps
        = ((ps.find? (paramInIs "body")).getD .null).getProp "schema" := by
  have hsome : (ps.find? (paramInIs "body")).isSome := by
    rw [List.find?_isSome]
    rcases List.exists_mem_of_length_pos (Nat.lt_of_lt_of_le (by decide) h) with ⟨a, ha⟩
    exact ⟨a, (List.mem_filter.mp ha).1, (List.mem_filter.mp ha).2⟩
  rcases Option.isSome_iff_exists.mp hsome with ⟨p, hp⟩
  exact ⟨hsome, by simp [CoreV2.createPayloadValidateSchema, hp]⟩

/-- Witness for C5 (amended) at the two concrete body parameters. -/
theorem createPayloadValidateSchema_first_body_wins_witness :
    ((([bodyParamOne, bodyParamTwo].filter (paramInIs "body")).length ≥ 2)
    ∧ CoreV2.createPayloadValidateSchema [bodyParamOne, bodyParamTwo]
        = (([bodyParamOne, bodyParamTwo].find? (paramInIs "body")).getD .null).getProp "schema") :=
  ⟨by decide,
   (createPayloadValidateSchema_first_body_wins [bodyParamOne, bodyParamTwo] (by decide)).2⟩

/-! ## C6: handler resolution -/

/-- Counterexample to C6: for a route whose id (`"listA"`) matches no
handler-table key, the composite key `"get /a"` is present in the table
and maps to a working handler, yet resolution binds the not-implemented
stand-in: the composite key is never consulted when the id is truthy. -/
theorem makeHapiRoute_lookup_counterexample :
    makeHapiRouteHandler compositeOnlyHandlers "listA" "get" "/a" Json.null
      = .notImplemented
    ∧ ((compositeOnlyHandlers.lookup "get /a").map (fun f => f Json.null))
      = some (.payload (.str "ok")) := by
  exact ⟨rfl, rfl⟩

/-- C6 (as amended) -- Handler resolution: a route with a truthy id is
looked up in the handler table at that id only; the composite key
`"<method> <uri>"` is consulted only when the id is falsy; any miss binds
the not-implemented stand-in, which replies the fixed not-implemented
outcome regardless of input. -/
theorem makeHapiRoute_resolution (handlers : List (String × (Json → Reply)))
    (id method uri : String) :
    (∀ f, id ≠ "" → handlers.lookup id = some f →
      makeHapiRouteHandler handlers id method uri = f)
    ∧ (id ≠ "" → handlers.lookup id = none →
      makeHapiRouteHandler handlers id method uri = notImplementedHandler)
    ∧ (∀ f, id = "" → handlers.lookup (method ++ " " ++ uri) = some f →
      makeHapiRouteHandler handlers id method uri = f)
    ∧ (id = "" → handlers.lookup (method ++ " " ++ uri) = none →
      makeHapiRouteHandler handlers id method uri = notImplementedHandler)
    ∧ (∀ req, notImplementedHandler req = .notImplemented) := by
  refine ⟨?_, ?_, ?_, ?_, fun _ => rfl⟩
  · intro f hid hf
    simp [makeHapiRouteHandler, hid, hf]
  · intro hid hf
    simp [makeHapiRouteHandler, hid, hf]
  · intro f hid hf
    simp [makeHapiRouteHandler, hid, hf]
  · intro hid hf
    simp [makeHapiRouteHandler, hid, hf]

/-- Witness for C6 (amended) at concrete routes: an id hit, an id miss
falling to the stand-in, a composite-key hit for an id-less route, and the
stand-in's fixed outcome. -/
theorem makeHapiRoute_resolution_witness :
    (makeHapiRouteHandler compositeOnlyHandlers "" "get" "/a" Json.null
      = .payload (.str "ok"))
    ∧ (makeHapiRouteHandler compositeOnlyHandlers "listA" "get" "/a"
        = notImplementedHandler)
    ∧ notImplementedHandler (.str "any request") = .notImplemented := by
  refine ⟨?_, ?_, ?_⟩
  · have h := (makeHapiRoute_resolution compositeOnlyHandlers "" "get" "/a").2.2.1
      (fun _ => .payload (.str "ok")) rfl rfl
    rw [h]
  · exact (makeHapiRoute_resolution compositeOnlyHandlers "listA" "get" "/a").2.1
      (by decide) rfl
  · exact (makeHapiRoute_resolution compositeOnlyHandlers "x" "y" "z").2.2.2.2 _

/-! ## C9: handler transforms -/

/-- Counterexample to C9: `false` is neither a string, nor a function, nor
absent, yet materialization does not fail -- a falsy transform is treated
as a no-op by `transformHandler`, so `register` completes silently. -/
theorem transformHandler_falsy_counterexample :
    transformHandler (.boolVal false) (.base "addPetHandler")
      = .ok (.base "addPetHandler")
    ∧ transformHandlers (.boolVal false) [("addPet", .base "addPetHandler")]
      = .ok [("addPet", .base "addPetHandler")] := by
  constructor
  · simp [transformHandler, handlerTruthy, transformTruthy]
  · simp [transformHandlers, transformHandler, handlerTruthy, transformTruthy]

/-- C9 (as amended) -- Transform dispatch: an absent (or otherwise falsy)
transform leaves handlers unchanged; a nonempty-string transform wraps
each truthy handler in an object keyed by that string; a function
transform is applied directly; a truthy transform of any other runtime
type raises `Invalid transform typeof` during materialization, aborting
setup before any request is served. -/
theorem transformHandler_dispatch (s : String) (f : HVal → HVal)
    (t : TransformVal) (hv : HVal) (k : String) :
    (transformHandler .undef hv = .ok hv)
    ∧ (handlerTruthy hv = true → s ≠ "" →
        transformHandler (.strVal s) hv = .ok (.objWrap s hv))
    ∧ (handlerTruthy hv = true →
        transformHandler (.fnVal f) hv = .ok (f hv))
    ∧ (handlerTruthy hv = false → transformHandler t hv = .ok hv)
    ∧ (transformTruthy t = false → transformHandler t hv = .ok hv)
    ∧ (handlerTruthy hv = true → transformTruthy t = true →
        (∀ s', t ≠ .strVal s') → (∀ f', t ≠ .fnVal f') →
        transformHandler t hv = .error "Invalid transform typeof")
    ∧ (handlerTruthy hv = true → transformTruthy t = true →
        (∀ s', t ≠ .strVal s') → (∀ f', t ≠ .fnVal f') →
        transformHandlers t [(k, hv)] = .error "Invalid transform typeof") := by
  refine ⟨?_, ?_, ?_, ?_, ?_, ?_, ?_⟩
  · simp [transformHandler, transformTruthy]
  · intro hh hs
    rw [transformHandler, transformHandler]
    simp [hh, transformTruthy, hs]
  · intro hh
    rw [transformHandler]
    simp [hh, transformTruthy]
  · intro hh
    rw [transformHandler.eq_def]
    simp [hh]
  · intro ht
    rw [transformHandler.eq_def]
    simp [ht]
  · intro hh ht hs hf
    rw [transformHandler.eq_def]
    simp only [hh, ht]
    cases t with
    | strVal s' => exact absurd rfl (hs s')
    | fnVal f' => exact absurd rfl (hf f')
    | undef => simp [transformTruthy] at ht
    | nullVal => simp [transformTruthy] at ht
    | boolVal b => simp
    | numVal q => simp
    | objVal o => simp
  · intro hh ht hs hf
    have herr : transformHandler t hv = .error "Invalid transform typeof" := by
      rw [transformHandler.eq_def]
      simp only [hh, ht]
      cases t with
      | strVal s' => exact absurd rfl (hs s')
      | fnVal f' => exact absurd rfl (hf f')
      | undef => simp [transformTruthy] at ht
      | nullVal => simp [transformTruthy] at ht
      | boolVal b => simp
      | numVal q => simp
      | objVal o => simp
    simp [transformHandlers, herr]

/-- Witness for C9 (amended) at concrete transforms: no transform, the
naming string `"handler"`, a concrete wrapping function, and the truthy
non-string non-function transform `42`, which aborts materialization. -/
theorem transformHandler_dispatch_witness :
    (transformHandler .undef (.base "h") = .ok (.base "h"))
    ∧ (transformHandler (.strVal "handler") (.base "h")
        = .ok (.objWrap "handler" (.base "h")))
    ∧ (transformHandler (.fnVal (fun x => .objWrap "wrapped" x)) (.base "h")
        = .ok (.objWrap "wrapped" (.base "h")))
    ∧ (transformHandlers (.numVal 42) [("addPet", .base "h")]
        = .error "Invalid transform typeof") := by
  refine ⟨?_, ?_, ?_, ?_⟩
  · exact (transformHandler_dispatch "x" id .undef (.base "h") "k").1
  · exact (transformHandler_dispatch "handler" id (.strVal "handler") (.base "h") "k").2.1
      rfl (by decide)
  · exact (transformHandler_dispatch "x" (fun x => .objWrap "wrapped" x)
      (.numVal 42) (.base "h") "k").2.2.1 rfl
  · exact (transformHandler_dispatch "x" id (.numVal 42) (.base "h") "addPet").2.2.2.2.2.2
      rfl (by decide) (fun s' h => TransformVal.noConfusion h)
      (fun f' h => TransformVal.noConfusion h)

/-! ## C4 and C8: the behaviour of `validate` -/

theorem Heap.get_concat_lt (h : Heap) (x : Json) (r : Nat)
    (hr : r < h.mem.length) : (Heap.mk (h.mem ++ [x])).get r = h.get r := by
  simp [Heap.get, List.getD_eq_getElem?_getD, List.getElem?_append, hr]

theorem Heap.get_concat_length (h : Heap) (x : Json) :
    (Heap.mk (h.mem ++ [x])).get h.mem.length = x := by
  simp [Heap.get, List.getD_eq_getElem?_getD, List.getElem?_concat_length]

theorem Heap.get_put_ne (h : Heap) (i j : Nat) (v : Json) (hij : i ≠ j) :
    (h.put i v).get j = h.get j := by
  simp [Heap.get, Heap.put, List.getD_eq_getElem?_getD, List.getElem?_set_ne hij]

theorem Heap.get_put_self (h : Heap) (i : Nat) (v : Json)
    (hi : i < h.mem.length) : (h.put i v).get i = v := by
  simp [Heap.get, Heap.put, List.getD_eq_getElem?_getD, List.getElem?_set_self, hi]

/-- C4 -- `validate` runs the compiled validator against a deep copy of
the caller's input: whatever the engine does (coercion, defaulting), the
caller-owned cell is left untouched, and on success the callback receives
a fresh cell (never the caller's) holding the engine's possibly
coerced/defaulted result of validating a copy of the input value. -/
theorem validate_deep_copies (engine : Engine) (schema : Json) (r : Nat)
    (h : Heap) (cache : CompileCache) (hr : r < h.mem.length) :
    ((validate engine schema r h cache).2.1.get r = h.get r)
    ∧ (∀ c, (validate engine schema r h cache).1 = .success c →
        c ≠ r ∧ (validate engine schema r h cache).2.1.get c
          = (engine schema (h.get r)).data) := by
  have hne : h.mem.length ≠ r := fun he => absurd (he ▸ hr) (Nat.lt_irrefl _)
  have hget : (Heap.mk (h.mem ++ [h.get r])).get h.mem.length = h.get r :=
    Heap.get_concat_length h (h.get r)
  constructor
  · show ((Heap.mk (h.mem ++ [h.get r])).put h.mem.length
        (engine schema ((Heap.mk (h.mem ++ [h.get r])).get h.mem.length)).data).get r
      = h.get r
    rw [Heap.get_put_ne _ _ _ _ hne, Heap.get_concat_lt _ _ _ hr]
  · intro c hc
    have hc' : c = h.mem.length := by
      have : dispatchOutcome (engine schema ((Heap.mk (h.mem ++ [h.get r])).get
          h.mem.length)) h.mem.length = .success c := hc
      unfold dispatchOutcome at this
      by_cases hres : (engine schema ((Heap.mk (h.mem ++ [h.get r])).get
          h.mem.length)).result
      · simp [hres] at this
        exact this.symm
      · simp [hres] at this
        rcases hout : (engine schema ((Heap.mk (h.mem ++ [h.get r])).get
            h.mem.length)).errors with _ | errs <;> simp [hout] at this
    subst hc'
    refine ⟨fun he => hne he, ?_⟩
    show ((Heap.mk (h.mem ++ [h.get r])).put h.mem.length
        (engine schema ((Heap.mk (h.mem ++ [h.get r])).get h.mem.length)).data).get
        h.mem.length
      = (engine schema (h.get r)).data
    rw [hget, Heap.get_put_self]
    simp

/-- Witness for C4: validating the cell holding `"42"` with the coercing
engine leaves the caller's cell intact and hands the callback a distinct
cell holding the coerced value. -/
theorem validate_deep_copies_witness :
    (0 < (Heap.mk [Json.str "42"]).mem.length)
    ∧ ((validate coerceEngine (.mkObj [("type", .str "integer")]) 0
        ⟨[Json.str "42"]⟩ .init).2.1.get 0 = .str "42")
    ∧ ((validate coerceEngine (.mkObj [("type", .str "integer")]) 0
        ⟨[Json.str "42"]⟩ .init).2.1.get 1 = .num 42) := by
  refine ⟨by decide, ?_, ?_⟩
  · exact (validate_deep_copies coerceEngine (.mkObj [("type", .str "integer")]) 0
      ⟨[Json.str "42"]⟩ .init (by decide)).1.trans rfl
  · exact (((validate_deep_copies coerceEngine (.mkObj [("type", .str "integer")]) 0
      ⟨[Json.str "42"]⟩ .init (by decide)).2 1 rfl).2).trans rfl

/-- C8 (as amended) -- The error dispatch of `validate`: on failure with a
present `errors` array the callback receives a `ValidationError` carrying
exactly that array (even when the array is empty); on failure with absent
(`null`) errors it receives the distinct `UnknownError`; on success it is
called with a null error and the output.  So an absent detail set never
yields a `ValidationError`, while an empty-but-present detail list yields
a `ValidationError` with empty detail. -/
theorem validate_error_dispatch (engine : Engine) (schema : Json) (r : Nat)
    (h : Heap) (cache : CompileCache) :
    ((engine schema (h.get r)).result = true →
      (validate engine schema r h cache).1 = .success h.mem.length)
    ∧ (∀ errs, (engine schema (h.get r)).result = false →
        (engine schema (h.get r)).errors = some errs →
        (validate engine schema r h cache).1 = .failure (.validationError errs))
    ∧ ((engine schema (h.get r)).result = false →
        (engine schema (h.get r)).errors = none →
        (validate engine schema r h cache).1 = .failure .unknownError)
    ∧ (∀ errs, ValError.validationError errs ≠ ValError.unknownError) := by
  have hget : (Heap.mk (h.mem ++ [h.get r])).get h.mem.length = h.get r :=
    Heap.get_concat_length h (h.get r)
  refine ⟨?_, ?_, ?_, fun errs he => ValError.noConfusion he⟩
  · intro hres
    show dispatchOutcome (engine schema ((Heap.mk (h.mem ++ [h.get r])).get
        h.mem.length)) h.mem.length = .success h.mem.length
    rw [hget]
    simp [dispatchOutcome, hres]
  · intro errs hres herrs
    show dispatchOutcome (engine schema ((Heap.mk (h.mem ++ [h.get r])).get
        h.mem.length)) h.mem.length = .failure (.validationError errs)
    rw [hget]
    simp [dispatchOutcome, hres, herrs]
  · intro hres herrs
    show dispatchOutcome (engine schema ((Heap.mk (h.mem ++ [h.get r])).get
        h.mem.length)) h.mem.length = .failure .unknownError
    rw [hget]
    simp [dispatchOutcome, hres, herrs]

/-- Counterexample to C8: when the engine reports failure with an *empty*
(but present) detail array, `validate` produces a detail-less
`ValidationError` rather than `UnknownError` -- the truthiness check
`if (validate.errors)` does not treat an empty array as absent detail. -/
theorem validate_empty_detail_counterexample :
    (validate emptyErrorsEngine (.mkObj []) 0
        ⟨[Json.mkObj [("limit", .str "abc")]]⟩ .init).1
      = .failure (.validationError [])
    ∧ CallbackArg.failure (.validationError [])
      ≠ CallbackArg.failure .unknownError := by
  exact ⟨rfl, by decide⟩

/-- Witness for C8 (amended) at a concrete failing engine outcome with
detail, one with absent detail, and a succeeding one. -/
theorem validate_error_dispatch_witness :
    ((validate detailErrorsEngine (.mkObj []) 0 ⟨[Json.null]⟩ .init).1
      = .failure (.validationError [⟨".limit", "should be integer"⟩]))
    ∧ ((validate noDetailEngine (.mkObj []) 0 ⟨[Json.null]⟩ .init).1
      = .failure .unknownError)
    ∧ ((validate successEngine (.mkObj []) 0 ⟨[Json.null]⟩ .init).1
      = .success 1) := by
  refine ⟨?_, ?_, ?_⟩
  · exact (validate_error_dispatch detailErrorsEngine (.mkObj []) 0
      ⟨[Json.null]⟩ .init).2.1 _ rfl rfl
  · exact (validate_error_dispatch noDetailEngine (.mkObj []) 0
      ⟨[Json.null]⟩ .init).2.2.1 rfl rfl
  · exact (validate_error_dispatch successEngine (.mkObj []) 0
      ⟨[Json.null]⟩ .init).1 rfl

/-! ## C1: the memoized compile cache -/

theorem lookup_eq_some_mem {α β : Type} [BEq α] [LawfulBEq α] :
    ∀ {l : List (α × β)} {a : α} {b : β}, l.lookup a = some b → (a, b) ∈ l
  | [], a, b, h => by simp [List.lookup] at h
  | (k, v) :: tl, a, b, h => by
    cases hk : a == k with
    | true =>
      rw [List.lookup, hk] at h
      cases h
      exact (eq_of_beq hk) ▸ List.mem_cons_self _ _
    | false =>
      rw [List.lookup, hk] at h
      exact List.mem_cons_of_mem _ (lookup_eq_some_mem h)

theorem lookup_eq_none_not_mem_keys {α β : Type} [BEq α] [LawfulBEq α] :
    ∀ {l : List (α × β)} {a : α}, l.lookup a = none → a ∉ l.map Prod.fst
  | [], a, _ => by simp
  | (k, v) :: tl, a, h => by
    cases hk : a == k with
    | true => rw [List.lookup, hk] at h; cases h
    | false =>
      rw [List.lookup, hk] at h
      intro hmem
      rcases List.mem_cons.mp hmem with he | hm
      · rw [he] at hk
        simp at hk
      · exact lookup_eq_none_not_mem_keys h hm

theorem cacheInv_init : CacheInv .init := by
  simp [CacheInv, CompileCache.init]

theorem cacheInv_step (s : Json) (c : CompileCache) (h : CacheInv c) :
    CacheInv (getValidateFunction s c).2 := by
  obtain ⟨h1, h2, h3⟩ := h
  unfold getValidateFunction
  cases hl : c.entries.lookup s with
  | some v => exact ⟨h1, h2, h3⟩
  | none =>
    refine ⟨?_, ?_, ?_⟩
    · simp [h1]
    · simp only [List.map_append, List.map_cons, List.map_nil]
      rw [← List.concat_eq_append]
      exact List.Nodup.concat (lookup_eq_none_not_mem_keys hl) h2
    · simp only [List.map_append, List.map_cons, List.map_nil, List.length_append]
      rw [h3]
      simp [List.range_succ]

theorem cacheInv_process (seq : List Json) :
    ∀ (c : CompileCache), CacheInv c → CacheInv (processCompiles seq c) := by
  induction seq with
  | nil => exact fun c h => h
  | cons s tl ih =>
    intro c h
    exact ih _ (cacheInv_step s c h)

theorem lookup_after_get_self (s : Json) (c : CompileCache) :
    (getValidateFunction s c).2.entries.lookup s
      = some (getValidateFunction s c).1 := by
  unfold getValidateFunction
  cases hl : c.entries.lookup s with
  | some v => simpa using hl
  | none =>
    simp only
    rw [List.lookup_append, hl]
    simp [List.lookup]

theorem get_stable (s : Json) (c : CompileCache) (v : Nat)
    (h : c.entries.lookup s = some v) : getValidateFunction s c = (v, c) := by
  unfold getValidateFunction
  rw [h]

theorem cached_ids_ne (s t : Json) (c : CompileCache) (hinv : CacheInv c)
    (v : Nat) (hv : c.entries.lookup s = some v) (hst : s ≠ t) :
    (getValidateFunction t c).1 ≠ v := by
  obtain ⟨h1, h2, h3⟩ := hinv
  have hmapSndNodup : (c.entries.map Prod.snd).Nodup := by
    rw [h3]; exact List.nodup_range _
  have hsv : (s, v) ∈ c.entries := lookup_eq_some_mem hv
  unfold getValidateFunction
  cases hl : c.entries.lookup t with
  | some w =>
    simp only
    intro he
    have htw : (t, w) ∈ c.entries := lookup_eq_some_mem hl
    have : (s, v) = (t, w) :=
      List.inj_on_of_nodup_map hmapSndNodup hsv htw (by simp [he])
    exact hst (congrArg Prod.fst this)
  | none =>
    simp only
    intro he
    have : v ∈ c.entries.map Prod.snd := List.mem_map_of_mem Prod.snd hsv
    rw [h3, List.mem_range] at this
    rw [he] at this
    exact Nat.lt_irrefl _ this

/-- C1 -- The compile cache: in any reachable process state, a second
compilation request for a structurally equal schema returns the very same
compiled instance without touching the cache; compilation work happens at
most once per distinct schema value; the validator `validate` runs for a
schema is the one the cache binds to that very schema (and a `validate`
call performs no further compilation once the schema is cached); and two
structurally different schemas never share one compiled validator
instance. -/
theorem getValidateFunction_memoized (seq : List Json) (s t : Json)
    (engine : Engine) (r : Nat) (hp : Heap) (hst : s ≠ t) :
    ((getValidateFunction s
        (getValidateFunction s (processCompiles seq .init)).2).1
      = (getValidateFunction s (processCompiles seq .init)).1)
    ∧ ((getValidateFunction s
        (getValidateFunction s (processCompiles seq .init)).2).2
      = (getValidateFunction s (processCompiles seq .init)).2)
    ∧ ((getValidateFunction s (processCompiles seq .init)).2.compileLog.count s ≤ 1)
    ∧ ((getValidateFunction s (processCompiles seq .init)).2.entries.lookup s
      = some (getValidateFunction s (processCompiles seq .init)).1)
    ∧ ((getValidateFunction t
        (getValidateFunction s (processCompiles seq .init)).2).1
      ≠ (getValidateFunction s (processCompiles seq .init)).1)
    ∧ ((validate engine s r hp
        (getValidateFunction s (processCompiles seq .init)).2).2.2
      = (getValidateFunction s (processCompiles seq .init)).2) := by
  have hinv0 : CacheInv (processCompiles seq .init) :=
    cacheInv_process seq _ cacheInv_init
  have hinv1 : CacheInv (getValidateFunction s (processCompiles seq .init)).2 :=
    cacheInv_step s _ hinv0
  have h4 : (getValidateFunction s (processCompiles seq .init)).2.entries.lookup s
      = some (getValidateFunction s (processCompiles seq .init)).1 :=
    lookup_after_get_self s _
  have hstable := get_stable s _ _ h4
  refine ⟨?_, ?_, ?_, h4, ?_, ?_⟩
  · rw [hstable]
  · rw [hstable]
  · obtain ⟨h1, h2, _⟩ := hinv1
    rw [h1]
    exact List.nodup_iff_count_le_one.mp h2 s
  · exact cached_ids_ne s t _ hinv1 _ h4 hst
  · show (getValidateFunction s
        (getValidateFunction s (processCompiles seq .init)).2).2
      = (getValidateFunction s (processCompiles seq .init)).2
    rw [hstable]

/-- Witness for C1 after the concrete call sequence `[schemaA]`. -/
theorem getValidateFunction_memoized_witness :
    (schemaA ≠ schemaB)
    ∧ ((getValidateFunction schemaA
        (getValidateFunction schemaA (processCompiles [schemaA] .init)).2).1
      = (getValidateFunction schemaA (processCompiles [schemaA] .init)).1)
    ∧ ((getValidateFunction schemaA (processCompiles [schemaA] .init)).2.compileLog.count schemaA ≤ 1)
    ∧ ((getValidateFunction schemaB
        (getValidateFunction schemaA (processCompiles [schemaA] .init)).2).1
      ≠ (getValidateFunction schemaA (processCompiles [schemaA] .init)).1) :=
  ⟨by decide,
   (getValidateFunction_memoized [schemaA] schemaA schemaB successEngine 0
      ⟨[]⟩ (by decide)).1,
   (getValidateFunction_memoized [schemaA] schemaA schemaB successEngine 0
      ⟨[]⟩ (by decide)).2.2.1,
   (getValidateFunction_memoized [schemaA] schemaA schemaB successEngine 0
      ⟨[]⟩ (by decide)).2.2.2.2.1⟩

/-! ## C3 and C10: numeric parameters and the string alternative -/

theorem createSchemaStep_eq (prev p : Json) :
    CoreV2.createSchemaStep prev p
      = assocProperties prev (paramNameStr p) (CoreV2.paramPropertySchema p) := by
  cases hn : (p.getProp "type" == some (.str "number")) <;>
    cases hi : (p.getProp "type" == some (.str "integer")) <;>
      cases ha : (p.getProp "type" == some (.str "array")) <;>
        simp [CoreV2.createSchemaStep, CoreV2.paramPropertySchema, hn, hi, ha]

theorem propertyOf_assocProperties_self (prev : Json) (n : String) (v : Json) :
    propertyOf (assocProperties prev n v) n = some v := by
  cases prev with
  | obj f =>
    cases hf : f.find? "properties" with
    | some pv =>
      cases pv <;> simp [assocProperties, propertyOf, Json.getProp, hf,
        JsonObject.find?_set_self]
    | none =>
      simp [assocProperties, propertyOf, Json.getProp, hf,
        JsonObject.find?_set_self]
  | null => simp [assocProperties, propertyOf, Json.mkObj, JsonObject.ofList, Json.getProp, JsonObject.find?]
  | bool b => simp [assocProperties, propertyOf, Json.mkObj, JsonObject.ofList, Json.getProp, JsonObject.find?]
  | num q => simp [assocProperties, propertyOf, Json.mkObj, JsonObject.ofList, Json.getProp, JsonObject.find?]
  | str s => simp [assocProperties, propertyOf, Json.mkObj, JsonObject.ofList, Json.getProp, JsonObject.find?]
  | arr e => simp [assocProperties, propertyOf, Json.mkObj, JsonObject.ofList, Json.getProp, JsonObject.find?]

theorem propertyOf_assocProperties_ne (prev : Json) (m n : String) (v : Json)
    (h : m ≠ n) : propertyOf (assocProperties prev m v) n = propertyOf prev n := by
  cases prev with
  | obj f =>
    cases hf : f.find? "properties" with
    | some pv =>
      cases pv <;> simp [assocProperties, propertyOf, Json.getProp, hf,
        JsonObject.find?_set_self, JsonObject.find?_set_ne _ _ _ _ h,
        JsonObject.find?, h]
    | none =>
      simp [assocProperties, propertyOf, Json.getProp, hf,
        JsonObject.find?_set_self, JsonObject.find?_set_ne _ _ _ _ h,
        JsonObject.find?, h]
  | null => simp [assocProperties, propertyOf, Json.mkObj, JsonObject.ofList, Json.getProp, JsonObject.find?, h]
  | bool b => simp [assocProperties, propertyOf, Json.mkObj, JsonObject.ofList, Json.getProp, JsonObject.find?, h]
  | num q => simp [assocProperties, propertyOf, Json.mkObj, JsonObject.ofList, Json.getProp, JsonObject.find?, h]
  | str s => simp [assocProperties, propertyOf, Json.mkObj, JsonObject.ofList, Json.getProp, JsonObject.find?, h]
  | arr e => simp [assocProperties, propertyOf, Json.mkObj, JsonObject.ofList, Json.getProp, JsonObject.find?, h]

theorem propertyOf_foldl_ne :
    ∀ (ps : List Json) (acc : Json) (n : String),
      (∀ q ∈ ps, paramNameStr q ≠ n) →
      propertyOf (ps.foldl CoreV2.createSchemaStep acc) n = propertyOf acc n
  | [], acc, n, _ => rfl
  | q :: rest, acc, n, h => by
    rw [List.foldl_cons,
      propertyOf_foldl_ne rest _ n (fun r hr => h r (List.mem_cons_of_mem _ hr)),
      createSchemaStep_eq,
      propertyOf_assocProperties_ne _ _ _ _ (h q (List.mem_cons_self _ _))]

theorem propertyOf_foldl_keep :
    ∀ (rest : List Json) (acc : Json) (p : Json),
      propertyOf acc (paramNameStr p) = some (CoreV2.paramPropertySchema p) →
      (∀ q ∈ rest, paramNameStr q = paramNameStr p → q = p) →
      propertyOf (rest.foldl CoreV2.createSchemaStep acc) (paramNameStr p)
        = some (CoreV2.paramPropertySchema p)
  | [], acc, p, hacc, _ => hacc
  | r :: rest, acc, p, hacc, h => by
    rw [List.foldl_cons]
    by_cases hr : paramNameStr r = paramNameStr p
    · have hrp : r = p := h r (List.mem_cons_self _ _) hr
      subst hrp
      exact propertyOf_foldl_keep rest _ r
        (by rw [createSchemaStep_eq, propertyOf_assocProperties_self])
        (fun q hq => h q (List.mem_cons_of_mem _ hq))
    · exact propertyOf_foldl_keep rest _ p
        (by rw [createSchemaStep_eq, propertyOf_assocProperties_ne _ _ _ _ hr, hacc])
        (fun q hq => h q (List.mem_cons_of_mem _ hq))

theorem propertyOf_foldl_mem :
    ∀ (ps : List Json) (acc : Json) (p : Json), p ∈ ps →
      (∀ q ∈ ps, paramNameStr q = paramNameStr p → q = p) →
      propertyOf (ps.foldl CoreV2.createSchemaStep acc) (paramNameStr p)
        = some (CoreV2.paramPropertySchema p)
  | [], _, p, hmem, _ => absurd hmem (List.not_mem_nil p)
  | q :: rest, acc, p, hmem, h => by
    rw [List.foldl_cons]
    rcases List.mem_cons.mp hmem with he | hm
    · subst he
      exact propertyOf_foldl_keep rest _ p
        (by rw [createSchemaStep_eq, propertyOf_assocProperties_self])
        (fun r hr => h r (List.mem_cons_of_mem _ hr))
    · exact propertyOf_foldl_mem rest _ p hm
        (fun r hr => h r (List.mem_cons_of_mem _ hr))

theorem JsonObject.find?_omitKeys_not_mem :
    ∀ (o : JsonObject) (ks : List String) (k : String), ks.contains k = false →
      (o.omitKeys ks).find? k = o.find? k
  | .nil, ks, k, _ => rfl
  | .cons key v tl, ks, k, h => by
    simp only [JsonObject.omitKeys]
    by_cases hc : ks.contains key
    · have hk : key ≠ k := fun he => by rw [he] at hc; rw [hc] at h; cases h
      rw [if_pos hc, find?_omitKeys_not_mem tl ks k h]
      simp [JsonObject.find?, hk]
    · rw [if_neg hc]
      by_cases hk : key = k <;>
        simp [JsonObject.find?, hk, find?_omitKeys_not_mem tl ks k h]

/-- C3 -- For a `path`, `query` or `header` parameter of declared type
`integer` or `number`, the derived location schema carries for that
parameter an `anyOf` of the parameter's strict schema and its string
variant with the matching numeric format; on a bare numeric parameter the
resulting alternative accepts the numeric-looking strings `"42"` (integer)
and `"3.14"` (number) as well as genuine numbers, and rejects `"abc"`. -/
theorem createSchema_numeric_anyOf (ps : List Json) (p : Json) (loc : String)
    (ap : Bool) (hmem : p ∈ ps) (hloc : paramInIs loc p = true)
    (hscope : loc = "path" ∨ loc = "query" ∨ loc = "header")
    (huniq : ∀ q ∈ ps, paramInIs loc q = true →
      paramNameStr q = paramNameStr p → q = p) :
    (CoreV2.createSchema ps loc ap).isSome
    ∧ (p.getProp "type" = some (.str "integer") →
        propertyOf ((CoreV2.createSchema ps loc ap).getD .null) (paramNameStr p)
          = some (.mkObj [("anyOf", .mkArr
              [CoreV2.paramSchema p,
               mergeObj (CoreV2.paramSchema p)
                 (.mkObj [("type", .str "string"), ("format", .str "integer")])])]))
    ∧ (p.getProp "type" = some (.str "number") →
        propertyOf ((CoreV2.createSchema ps loc ap).getD .null) (paramNameStr p)
          = some (.mkObj [("anyOf", .mkArr
              [CoreV2.paramSchema p,
               mergeObj (CoreV2.paramSchema p)
                 (.mkObj [("type", .str "string"), ("format", .str "number")])])]))
    ∧ (CoreV2.paramSchema p = .mkObj [("type", .str "integer")] →
        propertyOf ((CoreV2.createSchema ps loc ap).getD .null) (paramNameStr p)
          = some intBareAnyOf)
    ∧ validateJson intBareAnyOf (.str "42") = true
    ∧ validateJson intBareAnyOf (.str "abc") = false
    ∧ validateJson intBareAnyOf (.num 42) = true
    ∧ validateJson numBareAnyOf (.str "3.14") = true
    ∧ validateJson numBareAnyOf (.str "abc") = false := by
  have hpf : p ∈ ps.filter (paramInIs loc) := List.mem_filter.mpr ⟨hmem, hloc⟩
  have hlen : (ps.filter (paramInIs loc)).length ≠ 0 := by
    intro h0
    rw [List.length_eq_zero] at h0
    rw [h0] at hpf
    exact List.not_mem_nil p hpf
  have huniq' : ∀ q ∈ ps.filter (paramInIs loc),
      paramNameStr q = paramNameStr p → q = p := fun q hq =>
    huniq q (List.mem_filter.mp hq).1 (List.mem_filter.mp hq).2
  have hprop : propertyOf ((CoreV2.createSchema ps loc ap).getD .null)
      (paramNameStr p) = some (CoreV2.paramPropertySchema p) := by
    simp only [CoreV2.createSchema]
    rw [if_pos hlen, Option.getD_some]
    exact propertyOf_foldl_mem _ _ p hpf huniq'
  have hsome : (CoreV2.createSchema ps loc ap).isSome := by
    simp only [CoreV2.createSchema]
    rw [if_pos hlen]
    rfl
  have e1 : ((some (Json.str "integer") : Option Json)
      == some (Json.str "number")) = false := by decide
  have e2 : ((some (Json.str "integer") : Option Json)
      == some (Json.str "integer")) = true := by decide
  have e3 : ((some (Json.str "number") : Option Json)
      == some (Json.str "number")) = true := by decide
  refine ⟨hsome, ?_, ?_, ?_, by decide, by decide, by decide, by decide, by decide⟩
  · intro hint
    rw [hprop]
    simp [CoreV2.paramPropertySchema, hint, e1, e2]
  · intro hnum
    rw [hprop]
    simp [CoreV2.paramPropertySchema, hnum, e3]
  · intro hbare
    have hint : p.getProp "type" = some (.str "integer") := by
      cases p with
      | obj f =>
        have hof : f.omitKeys ["in", "name", "required"]
            = JsonObject.ofList [("type", .str "integer")] := by
          have := hbare
          simp only [CoreV2.paramSchema, paramFields, Json.mkObj] at this
          exact Json.obj.inj this
        show f.find? "type" = some (.str "integer")
        rw [← JsonObject.find?_omitKeys_not_mem f ["in", "name", "required"]
          "type" (by decide), hof]
        rfl
      | null => simp [CoreV2.paramSchema, paramFields, JsonObject.omitKeys, Json.mkObj, JsonObject.ofList] at hbare
      | bool b => simp [CoreV2.paramSchema, paramFields, JsonObject.omitKeys, Json.mkObj, JsonObject.ofList] at hbare
      | num q => simp [CoreV2.paramSchema, paramFields, JsonObject.omitKeys, Json.mkObj, JsonObject.ofList] at hbare
      | str s => simp [CoreV2.paramSchema, paramFields, JsonObject.omitKeys, Json.mkObj, JsonObject.ofList] at hbare
      | arr e => simp [CoreV2.paramSchema, paramFields, JsonObject.omitKeys, Json.mkObj, JsonObject.ofList] at hbare
    rw [hprop]
    have em : mergeObj (.mkObj [("type", .str "integer")])
        (.mkObj [("type", .str "string"), ("format", .str "integer")])
      = .mkObj [("type", .str "string"), ("format", .str "integer")] := by decide
    simp [CoreV2.paramPropertySchema, hint, e1, e2, hbare, em, intBareAnyOf]

/-- Witness for C3: the pet-store `limit` parameter (bare optional integer
in `query`) together with the concrete acceptance/rejection facts. -/
theorem createSchema_numeric_anyOf_witness :
    (CoreV2.createSchema [limitParam] "query" false).isSome
    ∧ validateJson intBareAnyOf (.str "42") = true
    ∧ validateJson intBareAnyOf (.str "abc") = false
    ∧ validateJson numBareAnyOf (.str "3.14") = true := by
  refine ⟨?_, ?_, ?_, ?_⟩
  · exact (createSchema_numeric_anyOf [limitParam] limitParam "query" false
      (List.mem_singleton_self _) (by decide) (Or.inr (Or.inl rfl))
      (fun q hq _ _ => List.mem_singleton.mp hq)).1
  · exact (createSchema_numeric_anyOf [limitParam] limitParam "query" false
      (List.mem_singleton_self _) (by decide) (Or.inr (Or.inl rfl))
      (fun q hq _ _ => List.mem_singleton.mp hq)).2.2.2.2.1
  · exact (createSchema_numeric_anyOf [limitParam] limitParam "query" false
      (List.mem_singleton_self _) (by decide) (Or.inr (Or.inl rfl))
      (fun q hq _ _ => List.mem_singleton.mp hq)).2.2.2.2.2.1
  · exact (createSchema_numeric_anyOf [limitParam] limitParam "query" false
      (List.mem_singleton_self _) (by decide) (Or.inr (Or.inl rfl))
      (fun q hq _ _ => List.mem_singleton.mp hq)).2.2.2.2.2.2.2.1

/-- C10 -- The derived numeric alternatives accept the empty string and
every whitespace-only string: the string branch checks its format by
coercing with unary plus, under which such strings coerce to `0`, which
passes both the `integer` and the `number` format, even though the string
is not a numeral.  In particular the derived `limit` property schema
accepts `""`. -/
theorem numeric_formats_accept_empty_string (s : String)
    (hws : s.toList.all isJsWhitespace = true) :
    jsToNumber s = .finite 0
    ∧ formatIntegerCheck s = true
    ∧ formatNumberCheck s = true
    ∧ validateJson intBareAnyOf (.str s) = true
    ∧ validateJson numBareAnyOf (.str s) = true
    ∧ propertyOf ((CoreV2.createSchema [limitParam] "query" false).getD .null)
        "limit" = some limitPropSchema
    ∧ validateJson limitPropSchema (.str "") = true := by
  have hd : s.data.dropWhile isJsWhitespace = [] := by
    rw [List.dropWhile_eq_nil_iff]
    exact List.all_eq_true.mp hws
  have h0 : jsToNumber s = .finite 0 := by
    simp [jsToNumber, hd]
  have hfi : formatIntegerCheck s = true := by
    simp [formatIntegerCheck, jsIsInteger, h0]
  have hfn : formatNumberCheck s = true := by
    simp [formatNumberCheck, jsIsNaN, h0]
  refine ⟨h0, hfi, hfn, ?_, ?_, by decide, by decide⟩
  · simp [intBareAnyOf, Json.mkObj, Json.mkArr, JsonObject.ofList,
      JsonArray.ofList, validateJson, validateKeywords, anyOfPasses,
      checkTypeKeyword, typeNameMatches, formatCheck, hfi]
  · simp [numBareAnyOf, Json.mkObj, Json.mkArr, JsonObject.ofList,
      JsonArray.ofList, validateJson, validateKeywords, anyOfPasses,
      checkTypeKeyword, typeNameMatches, formatCheck, hfn]

/-- Witness for C10 at the empty string and at a concrete whitespace-only
string. -/
theorem numeric_formats_accept_empty_string_witness :
    (jsToNumber "" = .finite 0)
    ∧ validateJson intBareAnyOf (.str "") = true
    ∧ validateJson numBareAnyOf (.str "") = true
    ∧ validateJson limitPropSchema (.str "") = true
    ∧ validateJson intBareAnyOf (.str "  ") = true :=
  ⟨(numeric_formats_accept_empty_string "" (by decide)).1,
   (numeric_formats_accept_empty_string "" (by decide)).2.2.2.1,
   (numeric_formats_accept_empty_string "" (by decide)).2.2.2.2.1,
   (numeric_formats_accept_empty_string "" (by decide)).2.2.2.2.2.2,
   (numeric_formats_accept_empty_string "  " (by decide)).2.2.2.1⟩
